import Mathlib

/-!
Verification of the dictea audio-capture / speech-to-text core.

The definitions below are a shallow embedding of the Rust sources under
`src-tauri/src/`:

* `audio/microphone.rs` — `resample`, `stereo_to_mono`, `run_audio_capture`,
  `AudioHandle::start`;
* `stt/engine.rs` — `Language`, `SttEvent`, `SttError`;
* `stt/voxtral.rs` and `stt/openai.rs` — the buffered network engines
  (accumulation buffer, FIFO event queue, pending flag, dispatch result
  handler);
* `pipeline/realtime.rs` — the pipeline state machine.

Modelling conventions:

* `f32` sample values are carried as exact rationals (`ℚ`); none of the
  properties proved here depends on the rounding of the interpolated sample
  values themselves.
* The `f64` arithmetic that `resample` uses for its *index* computations is
  modelled exactly: `fl` below is IEEE-754 binary64 round-to-nearest-even
  (53 significant bits, unbounded exponent — the sources never reach the
  overflow/subnormal ranges).
* Machine integers (`u32` rates, `usize` lengths/indices) are carried as `ℕ`;
  the conversions `usize -> f64` and `f64 -> usize` (truncation of a
  non-negative value) are modelled by `fl` and `Int.toNat ∘ Int.floor`.
* A Rust panic (out-of-bounds slice index) is modelled by `Option`:
  `resample` returns `none` where the Rust code would panic.
* Mutex locking is modelled as always succeeding (lock poisoning only arises
  from a panic in another thread, which is outside this model).
-/

namespace Dictea

/-! ## Exact model of IEEE-754 binary64 rounding -/

/-- Round a rational to the nearest integer, ties to even. -/
def roundHalfEven (q : ℚ) : ℤ :=
  if q - (⌊q⌋ : ℚ) < 1 / 2 then ⌊q⌋
  else if 1 / 2 < q - (⌊q⌋ : ℚ) then ⌊q⌋ + 1
  else if ⌊q⌋ % 2 = 0 then ⌊q⌋ else ⌊q⌋ + 1

/-- Binary64 round-to-nearest-even on rationals: the significand is scaled to
`[2^52, 2^53)`, rounded half-to-even, and scaled back.  Exponent range is
unbounded (no overflow / subnormals), which is exact for every value the
embedded code produces. -/
def fl (q : ℚ) : ℚ :=
  if q = 0 then 0
  else
    (roundHalfEven (q * 2 ^ (52 - Int.log 2 |q|)) : ℚ) * 2 ^ (Int.log 2 |q| - 52)

/-- Binary64 multiplication. -/
def fmul (a b : ℚ) : ℚ := fl (a * b)

/-- Binary64 division. -/
def fdiv (a b : ℚ) : ℚ := fl (a / b)

/-- Binary64 subtraction. -/
def fsub (a b : ℚ) : ℚ := fl (a - b)

/-- The value of `n as f64` for a natural number `n`. -/
def flNat (n : ℕ) : ℚ := fl (n : ℚ)

/-- The rounding unit of binary64: `2 ^ (-53)`. -/
def uRnd : ℚ := 1 / 9007199254740992

theorem uRnd_pos : 0 < uRnd := by norm_num [uRnd]

theorem uRnd_small : uRnd ≤ 1 / 1024 := by norm_num [uRnd]

theorem abs_roundHalfEven_sub_le (q : ℚ) : |(roundHalfEven q : ℚ) - q| ≤ 1 / 2 := by
  unfold roundHalfEven
  have hfl : (⌊q⌋ : ℚ) ≤ q := Int.floor_le q
  have hfu : q < (⌊q⌋ : ℚ) + 1 := Int.lt_floor_add_one q
  split_ifs with h1 h2 h3 <;>
    · push_cast
      rw [abs_le]
      constructor <;> linarith

theorem abs_fl_sub_le (q : ℚ) : |fl q - q| ≤ |q| * uRnd := by
  unfold fl
  split_ifs with h0
  · simp [h0, uRnd]
  · set e : ℤ := Int.log 2 |q|
    have hq : 0 < |q| := abs_pos.mpr h0
    have hlow : (2 : ℚ) ^ e ≤ |q| := Int.zpow_log_le_self (by norm_num) hq
    have h2 : (2 : ℚ) ≠ 0 := by norm_num
    have hpow : (0 : ℚ) < (2 : ℚ) ^ (e - 52) := by positivity
    have hqx : q = q * 2 ^ (52 - e) * 2 ^ (e - 52) := by
      rw [mul_assoc, ← zpow_add₀ h2]
      norm_num
    have key : (roundHalfEven (q * 2 ^ (52 - e)) : ℚ) * 2 ^ (e - 52) - q
        = ((roundHalfEven (q * 2 ^ (52 - e)) : ℚ) - q * 2 ^ (52 - e)) * 2 ^ (e - 52) := by
      rw [sub_mul, ← hqx]
    rw [key, abs_mul, abs_of_pos hpow]
    have hrr := abs_roundHalfEven_sub_le (q * 2 ^ (52 - e))
    have step2 : |(roundHalfEven (q * 2 ^ (52 - e)) : ℚ) - q * 2 ^ (52 - e)| * (2 : ℚ) ^ (e - 52)
        ≤ (1 / 2) * (2 : ℚ) ^ (e - 52) :=
      mul_le_mul_of_nonneg_right hrr (le_of_lt hpow)
    have step3 : (1 / 2 : ℚ) * (2 : ℚ) ^ (e - 52) = (2 : ℚ) ^ e * uRnd := by
      rw [show e - 52 = e + (-53) + 1 by ring, zpow_add₀ h2, zpow_add₀ h2]
      norm_num [uRnd]
      ring
    have step4 : (2 : ℚ) ^ e * uRnd ≤ |q| * uRnd :=
      mul_le_mul_of_nonneg_right hlow (le_of_lt uRnd_pos)
    calc |(roundHalfEven (q * 2 ^ (52 - e)) : ℚ) - q * 2 ^ (52 - e)| * (2 : ℚ) ^ (e - 52)
        ≤ (1 / 2) * (2 : ℚ) ^ (e - 52) := step2
      _ = (2 : ℚ) ^ e * uRnd := step3
      _ ≤ |q| * uRnd := step4

/-- Upper bound for the rounding of a non-negative value. -/
theorem fl_le_of_nonneg {q : ℚ} (hq : 0 ≤ q) : fl q ≤ q * (1 + uRnd) := by
  have h := abs_fl_sub_le q
  rw [abs_of_nonneg hq] at h
  have h1 := abs_le.mp h
  nlinarith [h1.1, h1.2]

/-- Lower bound for the rounding of a non-negative value. -/
theorem le_fl_of_nonneg {q : ℚ} (hq : 0 ≤ q) : q * (1 - uRnd) ≤ fl q := by
  have h := abs_fl_sub_le q
  rw [abs_of_nonneg hq] at h
  have h1 := abs_le.mp h
  nlinarith [h1.1, h1.2]

/-- Rounding preserves non-negativity. -/
theorem fl_nonneg {q : ℚ} (hq : 0 ≤ q) : 0 ≤ fl q := by
  nlinarith [le_fl_of_nonneg hq, uRnd_pos, uRnd_small]

/-- Rounding of a positive value stays positive. -/
theorem fl_pos {q : ℚ} (hq : 0 < q) : 0 < fl q := by
  have h := le_fl_of_nonneg (le_of_lt hq)
  nlinarith [uRnd_pos, uRnd_small]

/-- Characterize `Int.log 2` by power bracketing (used to evaluate `fl` at
concrete rationals). -/
theorem logTwoEq (e : ℤ) (q : ℚ) (h1 : (2 : ℚ) ^ e ≤ q) (h2 : q < (2 : ℚ) ^ (e + 1)) :
    Int.log 2 q = e := by
  have h0 : 0 < q := lt_of_lt_of_le (by positivity) h1
  have ha := Int.zpow_log_le_self (R := ℚ) (b := 2) (by norm_num) h0
  have hb := Int.lt_zpow_succ_log_self (R := ℚ) (b := 2) (by norm_num) q
  push_cast at ha hb
  by_contra hne
  rcases lt_or_gt_of_ne hne with hlt | hgt
  · have h3 : Int.log 2 q + 1 ≤ e := by omega
    have h4 := zpow_le_zpow_right₀ (by norm_num : (1 : ℚ) ≤ 2) h3
    linarith
  · have h3 : e + 1 ≤ Int.log 2 q := by omega
    have h4 := zpow_le_zpow_right₀ (by norm_num : (1 : ℚ) ≤ 2) h3
    linarith

theorem roundHalfEven_eval_lt {x : ℚ} {f : ℤ} (hf : ⌊x⌋ = f) (h : x - f < 1 / 2) :
    roundHalfEven x = f := by
  rw [roundHalfEven, hf, if_pos h]

theorem roundHalfEven_eval_gt {x : ℚ} {f : ℤ} (hf : ⌊x⌋ = f) (h : 1 / 2 < x - f) :
    roundHalfEven x = f + 1 := by
  rw [roundHalfEven, hf, if_neg (by linarith), if_pos h]

theorem roundHalfEven_intCast (z : ℤ) : roundHalfEven (z : ℚ) = z :=
  roundHalfEven_eval_lt (Int.floor_intCast z) (by norm_num)

/-- Evaluation rule for `fl` at a concrete positive rational: supply the
exponent bracket, the rounded significand and the final product. -/
theorem fl_eval {q r : ℚ} {e m : ℤ} (h0 : 0 < q)
    (h1 : (2 : ℚ) ^ e ≤ q) (h2 : q < (2 : ℚ) ^ (e + 1))
    (hm : roundHalfEven (q * 2 ^ (52 - e)) = m)
    (hr : (m : ℚ) * 2 ^ (e - 52) = r) :
    fl q = r := by
  rw [fl, if_neg (ne_of_gt h0), abs_of_pos h0, logTwoEq e q h1 h2, hm, hr]

/-- Naturals below `2 ^ 53` convert to `f64` exactly. -/
theorem flNat_eq_self {n : ℕ} (h1 : 1 ≤ n) (h2 : n < 2 ^ 53) : flNat n = n := by
  have h0 : (0 : ℚ) < n := by exact_mod_cast h1
  have hk : Nat.log 2 n ≤ 52 := by
    have := Nat.log_lt_of_lt_pow (by omega : n ≠ 0) h2
    omega
  have he : Int.log 2 (n : ℚ) = (Nat.log 2 n : ℤ) := Int.log_natCast 2 n
  set k : ℕ := Nat.log 2 n with hkdef
  have hsub : (52 : ℤ) - (k : ℤ) = ((52 - k : ℕ) : ℤ) := by omega
  have hcast : (n : ℚ) * 2 ^ ((52 : ℤ) - (k : ℤ)) = ((n * 2 ^ (52 - k) : ℕ) : ℚ) := by
    rw [hsub, zpow_natCast]
    push_cast
    ring
  rw [flNat, fl, if_neg (ne_of_gt h0), abs_of_pos h0, he, hcast]
  have hint : ((n * 2 ^ (52 - k) : ℕ) : ℚ) = (((n * 2 ^ (52 - k) : ℕ) : ℤ) : ℚ) := by
    push_cast
    ring
  rw [hint, roundHalfEven_intCast]
  push_cast
  rw [mul_assoc, ← zpow_natCast (2 : ℚ) (52 - k), ← zpow_add₀ (by norm_num : (2 : ℚ) ≠ 0)]
  rw [show ((52 - k : ℕ) : ℤ) + ((k : ℤ) - 52) = 0 by omega, zpow_zero, mul_one]

/-! ## audio/microphone.rs -/

/-- Audio samples: `f32` values carried as exact rationals. -/
abbrev Sample := ℚ

/-- The `AudioConfig` struct of `audio/microphone.rs`. -/
structure AudioConfig where
  target_sample_rate : ℕ
deriving DecidableEq

/-- The `Default` impl for `AudioConfig` (target rate 16000). -/
def AudioConfig.default : AudioConfig := ⟨16000⟩

/-- The `MicrophoneError` enum of `audio/microphone.rs`. -/
inductive MicrophoneError where
  | NoDevice
  | ConfigError (msg : String)
  | StreamError (msg : String)
  | NotStarted
deriving DecidableEq

/-- One iteration of the interpolation loop of `resample` for output index `i`.
Index arithmetic follows the source's `f64` computations exactly; `none`
models the panic of an out-of-bounds `samples[idx_floor]` access. -/
def resampleStep (samples : List Sample) (ratio : ℚ) (i : ℕ) : Option Sample :=
  let srcIdx := fmul (flNat i) ratio
  let idxFloor := Int.toNat ⌊srcIdx⌋
  let idxCeil := min (idxFloor + 1) (samples.length - 1)
  if idxFloor < samples.length then
    let frac := fsub srcIdx (flNat idxFloor)
    some (samples.getD idxFloor 0 * (1 - frac) + samples.getD idxCeil 0 * frac)
  else
    none

/-- The `for i in 0..output_len` loop of `resample`, pushing one interpolated
sample per index; the whole call fails (Rust panic) as soon as one step does. -/
def resampleLoop (samples : List Sample) (ratio : ℚ) : List ℕ → Option (List Sample)
  | [] => some []
  | i :: rest =>
    match resampleStep samples ratio i, resampleLoop samples ratio rest with
    | some v, some vs => some (v :: vs)
    | _, _ => none

/-- The `resample` function of `audio/microphone.rs`: equal rates short-circuit
to a copy of the input, otherwise `output_len = (samples.len() as f64 / ratio)
as usize` samples are produced by linear interpolation, with
`ratio = source_rate as f64 / target_rate as f64`. -/
def resample (samples : List Sample) (source_rate target_rate : ℕ) : Option (List Sample) :=
  if source_rate = target_rate then
    some samples
  else
    let ratio := fdiv (flNat source_rate) (flNat target_rate)
    let output_len := Int.toNat ⌊fdiv (flNat samples.length) ratio⌋
    resampleLoop samples ratio (List.range output_len)

/-- The number of output samples `resample` computes before entering its loop
(the `output_len` local of the source, and the input length itself when the
rates are equal). -/
def resampleOutputLen (len source_rate target_rate : ℕ) : ℕ :=
  if source_rate = target_rate then len
  else Int.toNat ⌊fdiv (flNat len) (fdiv (flNat source_rate) (flNat target_rate))⌋

/-- Rust's `slice::chunks(n)`: contiguous groups of `n` elements, the last
group possibly shorter.  (`chunks` panics on `n = 0`; that case is never
reached by the embedded callers, which pass a channel count `≥ 1`.) -/
def chunksRs (n : ℕ) (l : List Sample) : List (List Sample) :=
  if h : l = [] ∨ n = 0 then []
  else (l.take n) :: chunksRs n (l.drop n)
termination_by l.length
decreasing_by
  simp only [not_or] at h
  have h1 : l ≠ [] := h.1
  have h2 : n ≠ 0 := h.2
  have : 0 < l.length := List.length_pos.mpr h1
  simp only [List.length_drop]
  omega

/-- The `stereo_to_mono` function of `audio/microphone.rs`: single-channel
input is returned unchanged, otherwise every chunk of `channels` samples is
summed and divided by the channel count.  The `f32` sum/division is carried
exactly over `ℚ`. -/
def stereo_to_mono (samples : List Sample) (channels : ℕ) : List Sample :=
  if channels = 1 then samples
  else (chunksRs channels samples).map (fun chunk => chunk.sum / (channels : ℚ))

instance {ε α : Type} [DecidableEq ε] [DecidableEq α] : DecidableEq (Except ε α)
  | .ok a, .ok b => decidable_of_iff (a = b) (by simp)
  | .ok _, .error _ => isFalse (by simp)
  | .error _, .ok _ => isFalse (by simp)
  | .error a, .error b => decidable_of_iff (a = b) (by simp)

/-- An input device as the capture thread sees it: the outcome of
`default_input_config()`, and of building and starting (`play`) the stream.
The error payloads are the stringified `cpal` errors. -/
structure InputDevice where
  defaultInputConfigResult : Except String AudioConfig
  buildInputStreamResult : Except String Unit
  playResult : Except String Unit
deriving DecidableEq

/-- The host audio subsystem: `cpal::default_host()` together with the
presence of a default input device. -/
structure Host where
  defaultInputDevice : Option InputDevice

/-- The `run_audio_capture` function of `audio/microphone.rs`: runs on the
dedicated capture thread, resolves the device and its configuration, builds
and starts the stream, then waits for a stop command (the successful exit of
that wait loop is the final `Ok(())`). -/
def run_audio_capture (host : Host) (_config : AudioConfig) : Except MicrophoneError Unit :=
  match host.defaultInputDevice with
  | none => .error MicrophoneError.NoDevice
  | some device =>
    match device.defaultInputConfigResult with
    | .error e => .error (MicrophoneError.ConfigError e)
    | .ok _supported_config =>
      match device.buildInputStreamResult with
      | .error e => .error (MicrophoneError.StreamError e)
      | .ok _ =>
        match device.playResult with
        | .error e => .error (MicrophoneError.StreamError e)
        | .ok _ => .ok ()

/-- The `AudioHandle` struct: its only observable payload here is the result
the spawned capture thread eventually produces (the source only logs it). -/
structure AudioHandle where
  captureThreadResult : Except MicrophoneError Unit
deriving DecidableEq

/-- The `AudioHandle::start` associated function of `audio/microphone.rs`:
spawns the capture thread and returns `Ok(Self { .. })` unconditionally; the
result of `run_audio_capture` stays inside the spawned thread. -/
def AudioHandle.start (host : Host) (config : AudioConfig) :
    Except MicrophoneError AudioHandle :=
  .ok ⟨run_audio_capture host config⟩

/-! ## stt/engine.rs -/

/-- The `SttEvent` enum of `stt/engine.rs`. -/
inductive SttEvent where
  | Partial (text : String)
  | Final (text : String)
deriving DecidableEq

/-- The `SttError` enum of `stt/engine.rs`. -/
inductive SttError where
  | ModelLoadError (msg : String)
  | ModelNotFound (msg : String)
  | InferenceError (msg : String)
  | InvalidAudioFormat (msg : String)
  | NotInitialized
deriving DecidableEq

/-- The `Language` enum of `stt/engine.rs`. -/
inductive Language where
  | Auto
  | French
  | English
  | Spanish
  | German
  | Italian
  | Portuguese
  | Other (code : String)
deriving DecidableEq

/-- Rust's `str::to_lowercase`, modelled character by character (faithful for
the ASCII codes the language table uses). -/
def rustToLower (s : String) : String := ⟨s.data.map Char.toLower⟩

/-- The `Language::code` method of `stt/engine.rs`. -/
def Language.code : Language → String
  | .Auto => "auto"
  | .French => "fr"
  | .English => "en"
  | .Spanish => "es"
  | .German => "de"
  | .Italian => "it"
  | .Portuguese => "pt"
  | .Other code => code

/-- The `Language::from_code` method of `stt/engine.rs`: the source matches on
`code.to_lowercase().as_str()`; the match on string literals is rendered as
the equivalent chain of equality tests. -/
def Language.from_code (code : String) : Language :=
  if rustToLower code = "auto" then .Auto
  else if rustToLower code = "fr" ∨ rustToLower code = "french" then .French
  else if rustToLower code = "en" ∨ rustToLower code = "english" then .English
  else if rustToLower code = "es" ∨ rustToLower code = "spanish" then .Spanish
  else if rustToLower code = "de" ∨ rustToLower code = "german" then .German
  else if rustToLower code = "it" ∨ rustToLower code = "italian" then .Italian
  else if rustToLower code = "pt" ∨ rustToLower code = "portuguese" then .Portuguese
  else .Other (rustToLower code)

/-- The strings `Language::from_code` recognizes as named languages (the
literal patterns of its match). -/
def langAliases : List String :=
  ["auto", "fr", "french", "en", "english", "es", "spanish",
   "de", "german", "it", "italian", "pt", "portuguese"]

/-! ## stt/voxtral.rs

The engine-visible state of a `VoxtralEngine`.  The `shared_events` queue is
carried directly (front = next event `poll` returns); the mutex around it is
modelled as always acquirable.  The detached request thread is modelled by
the payload `send_full_audio` hands it (the taken buffer) and by
`voxtralSettleResult`, the body it runs when the HTTP call settles. -/

/-- The fields of `VoxtralEngine` (`stt/voxtral.rs`) that its methods read or
write. -/
structure VoxtralEngineState where
  api_key : String
  language : Language
  audio_buffer : List Sample
  events : List SttEvent
  pending : Bool
deriving DecidableEq

namespace VoxtralEngine

/-- The `with_api_key` constructor of `stt/voxtral.rs`. -/
def with_api_key (key : String) : VoxtralEngineState :=
  { api_key := key, language := .Auto, audio_buffer := [], events := [], pending := false }

/-- The `push_audio` trait method: appends the samples to the accumulation
buffer and does nothing else. -/
def push_audio (pcm : List Sample) (s : VoxtralEngineState) : VoxtralEngineState :=
  { s with audio_buffer := s.audio_buffer ++ pcm }

/-- The `poll` trait method: pops the front of the shared event queue,
returning the none-sentinel on an empty queue. -/
def poll (s : VoxtralEngineState) : Option SttEvent × VoxtralEngineState :=
  match s.events with
  | [] => (none, s)
  | e :: rest => (some e, { s with events := rest })

/-- The `events.push_back(..)` enqueue performed by the detached request
thread of `stt/voxtral.rs`. -/
def enqueue_event (e : SttEvent) (s : VoxtralEngineState) : VoxtralEngineState :=
  { s with events := s.events ++ [e] }

/-- The `send_full_audio` method of `stt/voxtral.rs`: empty buffers are
ignored, buffers under 16000 samples are cleared and skipped, otherwise the
whole buffer is taken (left empty), the pending flag set, and the taken
samples handed to the spawned request thread — returned here as the second
component. -/
def send_full_audio (s : VoxtralEngineState) : VoxtralEngineState × Option (List Sample) :=
  if s.audio_buffer = [] then (s, none)
  else if s.audio_buffer.length < 16000 then ({ s with audio_buffer := [] }, none)
  else ({ s with audio_buffer := [], pending := true }, some s.audio_buffer)

/-- The `flush` trait method of `stt/voxtral.rs`: calls `send_full_audio`,
then `wait_for_pending`, which only sleeps and reads the flag (no
engine-visible state change). -/
def flush (s : VoxtralEngineState) : VoxtralEngineState × Option (List Sample) :=
  send_full_audio s

/-- The `reset` trait method of `stt/voxtral.rs`. -/
def reset (s : VoxtralEngineState) : VoxtralEngineState :=
  { s with audio_buffer := [], events := [] }

/-- The `set_language` trait method of `stt/voxtral.rs`. -/
def set_language (lang : Language) (s : VoxtralEngineState) : VoxtralEngineState :=
  { s with language := lang }

/-- The result handler the spawned request thread of `stt/voxtral.rs` runs
once `transcribe_async` settles: on success with non-empty text enqueue a
`Final` event, on failure only log; either way clear the pending flag. -/
def settleResult (result : Except SttError String) (s : VoxtralEngineState) :
    VoxtralEngineState :=
  match result with
  | .ok text =>
    if text = "" then { s with pending := false }
    else { s with events := s.events ++ [SttEvent.Final text], pending := false }
  | .error _ => { s with pending := false }

/-- Repeated `poll` until the none-sentinel, collecting the returned events
(with fuel, which `pollDrain` instantiates with the queue length). -/
def pollDrainAux : ℕ → VoxtralEngineState → List SttEvent
  | 0, _ => []
  | n + 1, s =>
    match poll s with
    | (none, _) => []
    | (some e, s') => e :: pollDrainAux n s'

/-- Every event `poll` yields before first returning the none-sentinel. -/
def pollDrain (s : VoxtralEngineState) : List SttEvent :=
  pollDrainAux s.events.length s

end VoxtralEngine

/-! ## stt/openai.rs

`OpenAiEngine` duplicates the buffered pattern of `VoxtralEngine` with the
same fields, the same 16000-sample gate and the same result handler (only
endpoint, payload and model id differ, none of which are engine-visible
state). -/

/-- The fields of `OpenAiEngine` (`stt/openai.rs`) that its methods read or
write. -/
structure OpenAiEngineState where
  api_key : String
  language : Language
  audio_buffer : List Sample
  events : List SttEvent
  pending : Bool
deriving DecidableEq

namespace OpenAiEngine

/-- The `send_full_audio` method of `stt/openai.rs` (same gate and take as
the Voxtral one). -/
def send_full_audio (s : OpenAiEngineState) : OpenAiEngineState × Option (List Sample) :=
  if s.audio_buffer = [] then (s, none)
  else if s.audio_buffer.length < 16000 then ({ s with audio_buffer := [] }, none)
  else ({ s with audio_buffer := [], pending := true }, some s.audio_buffer)

/-- The result handler of the spawned request thread of `stt/openai.rs`. -/
def settleResult (result : Except SttError String) (s : OpenAiEngineState) :
    OpenAiEngineState :=
  match result with
  | .ok text =>
    if text = "" then { s with pending := false }
    else { s with events := s.events ++ [SttEvent.Final text], pending := false }
  | .error _ => { s with pending := false }

end OpenAiEngine

/-! ## pipeline/realtime.rs -/

/-- The `PipelineStatus` enum of `pipeline/realtime.rs`. -/
inductive PipelineStatus where
  | Stopped
  | Starting
  | Running
  | Stopping
  | Error (msg : String)
deriving DecidableEq

/-- The `PipelineError` enum of `pipeline/realtime.rs`. -/
inductive PipelineError where
  | AudioError (e : MicrophoneError)
  | SttFailure (e : SttError)
  | AlreadyRunning
  | NotRunning
deriving DecidableEq

/-- The `PipelineConfig` struct of `pipeline/realtime.rs`. -/
structure PipelineConfig where
  language : Language
  audio_config : AudioConfig
deriving DecidableEq

/-- The `RealtimePipeline<E>` state of `pipeline/realtime.rs`, instantiated
with the Voxtral engine model.  `stop_channel` records whether `stop_tx` is
`Some`, `published` the events sent on the broadcast channel so far. -/
structure RealtimePipelineState where
  config : PipelineConfig
  stt_engine : VoxtralEngineState
  status : PipelineStatus
  audio_handle : Option AudioHandle
  stop_channel : Bool
  published : List SttEvent
deriving DecidableEq

namespace RealtimePipeline

/-- The `RealtimePipeline::new` constructor. -/
def new (engine : VoxtralEngineState) (config : PipelineConfig) : RealtimePipelineState :=
  { config := config, stt_engine := engine, status := .Stopped,
    audio_handle := none, stop_channel := false, published := [] }

/-- The `start` method of `pipeline/realtime.rs`: an `AlreadyRunning` error
if the status is `Running`, otherwise set `Starting`, apply the configured
language to the engine, open the channels, start audio capture (propagating
its error with `?`), spawn the processing loop and set `Running`. -/
def start (host : Host) (p : RealtimePipelineState) :
    Except PipelineError Unit × RealtimePipelineState :=
  if p.status = PipelineStatus.Running then
    (.error PipelineError.AlreadyRunning, p)
  else
    let p1 := { p with status := PipelineStatus.Starting }
    let p2 := { p1 with stt_engine := VoxtralEngine.set_language p1.config.language p1.stt_engine }
    let p3 := { p2 with stop_channel := true }
    match AudioHandle.start host p3.config.audio_config with
    | .error e => (.error (PipelineError.AudioError e), p3)
    | .ok handle =>
      let p4 := { p3 with audio_handle := some handle }
      let p5 := { p4 with status := PipelineStatus.Running }
      (.ok (), p5)

/-- The `stop` method of `pipeline/realtime.rs`: success without any effect
if already `Stopped`, otherwise set `Stopping`, signal and drop the stop
channel, stop and drop the audio handle, flush the engine, republish every
event the engine still yields, and set `Stopped`. -/
def stop (p : RealtimePipelineState) :
    Except PipelineError Unit × RealtimePipelineState :=
  if p.status = PipelineStatus.Stopped then
    (.ok (), p)
  else
    let p1 := { p with status := PipelineStatus.Stopping }
    let p2 := { p1 with stop_channel := false }
    let p3 := { p2 with audio_handle := none }
    let flushed := (VoxtralEngine.flush p3.stt_engine).1
    let drained := VoxtralEngine.pollDrain flushed
    let p4 := { p3 with
      stt_engine := { flushed with events := [] },
      published := p3.published ++ drained }
    let p5 := { p4 with status := PipelineStatus.Stopped }
    (.ok (), p5)

end RealtimePipeline

/-! ## Helper lemmas -/

theorem poll_eq (s : VoxtralEngineState) :
    VoxtralEngine.poll s = (s.events.head?, { s with events := s.events.tail }) := by
  cases hs : s.events with
  | nil =>
    cases s
    simp_all [VoxtralEngine.poll]
  | cons e rest => simp [VoxtralEngine.poll, hs]

theorem pollDrainAux_eq (n : ℕ) (s : VoxtralEngineState) (h : s.events.length ≤ n) :
    VoxtralEngine.pollDrainAux n s = s.events := by
  induction n generalizing s with
  | zero =>
    have hnil : s.events = [] := List.eq_nil_of_length_eq_zero (Nat.le_zero.mp h)
    simp [VoxtralEngine.pollDrainAux, hnil]
  | succ n ih =>
    cases hs : s.events with
    | nil => simp [VoxtralEngine.pollDrainAux, VoxtralEngine.poll, hs]
    | cons e rest =>
      have hp : VoxtralEngine.poll s = (some e, { s with events := rest }) := by
        simp [VoxtralEngine.poll, hs]
      have hr : rest.length ≤ n := by
        have := h
        rw [hs] at this
        simpa using this
      simp [VoxtralEngine.pollDrainAux, hp, ih { s with events := rest } hr, hs]

theorem pollDrain_eq (s : VoxtralEngineState) : VoxtralEngine.pollDrain s = s.events :=
  pollDrainAux_eq _ _ le_rfl

theorem foldl_push_audio (chunks : List (List Sample)) (s : VoxtralEngineState) :
    chunks.foldl (fun t c => VoxtralEngine.push_audio c t) s
      = { s with audio_buffer := s.audio_buffer ++ chunks.flatten } := by
  induction chunks generalizing s with
  | nil =>
    cases s
    simp
  | cons c cs ih =>
    rw [List.foldl_cons, ih]
    simp [VoxtralEngine.push_audio, List.append_assoc]

theorem resampleLoop_length (s : List Sample) (ratio : ℚ) (l : List ℕ)
    (out : List Sample) (h : resampleLoop s ratio l = some out) :
    out.length = l.length := by
  induction l generalizing out with
  | nil =>
    simp only [resampleLoop] at h
    cases h
    rfl
  | cons i rest ih =>
    simp only [resampleLoop] at h
    cases hstep : resampleStep s ratio i with
    | none => rw [hstep] at h; cases h
    | some v =>
      cases hrec : resampleLoop s ratio rest with
      | none => rw [hstep, hrec] at h; cases h
      | some vs =>
        rw [hstep, hrec] at h
        cases h
        simp [ih vs hrec]

theorem resampleLoop_isSome (s : List Sample) (ratio : ℚ) (l : List ℕ)
    (h : ∀ i ∈ l, (resampleStep s ratio i).isSome) :
    (resampleLoop s ratio l).isSome := by
  induction l with
  | nil => simp [resampleLoop]
  | cons i rest ih =>
    have hstep := h i (List.mem_cons_self i rest)
    have hrest : (resampleLoop s ratio rest).isSome :=
      ih (fun j hj => h j (List.mem_cons_of_mem i hj))
    rw [Option.isSome_iff_exists] at hstep hrest
    obtain ⟨v, hv⟩ := hstep
    obtain ⟨vs, hvs⟩ := hrest
    simp [resampleLoop, hv, hvs]

theorem resampleLoop_eq_none (s : List Sample) (ratio : ℚ) (l : List ℕ) (i : ℕ)
    (hmem : i ∈ l) (hnone : resampleStep s ratio i = none) :
    resampleLoop s ratio l = none := by
  induction l with
  | nil => cases hmem
  | cons j rest ih =>
    rcases List.mem_cons.mp hmem with hj | hj
    · subst hj
      simp [resampleLoop, hnone]
    · rw [resampleLoop, ih hj]
      cases resampleStep s ratio j <;> rfl

/-- Error analysis of the index arithmetic of `resample`: for every output
index below the computed output length, the interpolated source position
stays strictly below the input length, provided the input is not
astronomically large relative to the rate ratio. -/
theorem src_lt_len (len sr tr : ℕ) (hsr : 1 ≤ sr) (htr : 1 ≤ tr)
    (hsize : 32 * len * tr ≤ sr * 9007199254740992) (i : ℕ)
    (hi : (i : ℚ) + 1 ≤ fdiv (flNat len) (fdiv (flNat sr) (flNat tr))) :
    0 ≤ fmul (flNat i) (fdiv (flNat sr) (flNat tr)) ∧
    fmul (flNat i) (fdiv (flNat sr) (flNat tr)) < (len : ℚ) := by
  have hu0 : 0 < uRnd := uRnd_pos
  have hu1 : uRnd ≤ 1 / 1024 := uRnd_small
  have hS : (1 : ℚ) ≤ (sr : ℚ) := by exact_mod_cast hsr
  have hT : (1 : ℚ) ≤ (tr : ℚ) := by exact_mod_cast htr
  have hL : (0 : ℚ) ≤ (len : ℚ) := by positivity
  have hI : (0 : ℚ) ≤ (i : ℚ) := by positivity
  have hSpos : (0 : ℚ) < (sr : ℚ) := by linarith
  have hTpos : (0 : ℚ) < (tr : ℚ) := by linarith
  set u : ℚ := uRnd with hudef
  set S : ℚ := (sr : ℚ) with hSdef
  set T : ℚ := (tr : ℚ) with hTdef
  set L : ℚ := (len : ℚ) with hLdef
  set I : ℚ := (i : ℚ) with hIdef
  set fS : ℚ := flNat sr with hfSdef
  set fT : ℚ := flNat tr with hfTdef
  have hfS_pos : 0 < fS := fl_pos hSpos
  have hfT_pos : 0 < fT := fl_pos hTpos
  have hfS_lb : S * (1 - u) ≤ fS := le_fl_of_nonneg hSpos.le
  have hfT_ub : fT ≤ T * (1 + u) := fl_le_of_nonneg hTpos.le
  set A : ℚ := fS / fT with hAdef
  have hA_pos : 0 < A := div_pos hfS_pos hfT_pos
  set ratio : ℚ := fdiv (flNat sr) (flNat tr) with hratiodef
  have hratio_eq : ratio = fl A := rfl
  have hratio_pos : 0 < ratio := by rw [hratio_eq]; exact fl_pos hA_pos
  have hratio_lb : A * (1 - u) ≤ ratio := by rw [hratio_eq]; exact le_fl_of_nonneg hA_pos.le
  have hAfT : A * fT = fS := div_mul_cancel₀ _ (ne_of_gt hfT_pos)
  set fL : ℚ := flNat len with hfLdef
  have hfL_nonneg : 0 ≤ fL := fl_nonneg hL
  have hfL_ub : fL ≤ L * (1 + u) := fl_le_of_nonneg hL
  set Q : ℚ := fdiv (flNat len) ratio with hQdef
  have hQ_ub : Q ≤ fL / ratio * (1 + u) :=
    fl_le_of_nonneg (div_nonneg hfL_nonneg hratio_pos.le)
  set fI : ℚ := flNat i with hfIdef
  have hfI_nonneg : 0 ≤ fI := fl_nonneg hI
  have hfI_ub : fI ≤ I * (1 + u) := fl_le_of_nonneg hI
  set src : ℚ := fmul (flNat i) ratio with hsrcdef
  have hsrc_nonneg : 0 ≤ src := fl_nonneg (mul_nonneg hfI_nonneg hratio_pos.le)
  have hsrc_ub : src ≤ fI * ratio * (1 + u) :=
    fl_le_of_nonneg (mul_nonneg hfI_nonneg hratio_pos.le)
  have hsizeQ : 32 * L * T ≤ S * 9007199254740992 := by
    rw [hLdef, hTdef, hSdef]
    exact_mod_cast hsize
  have hinv : u * 9007199254740992 = 1 := by norm_num [hudef, uRnd]
  clear_value u S T L I fS fT A ratio fL Q fI src
  have hu_nonneg : (0 : ℚ) ≤ 1 + u := by linarith
  have humu : (0 : ℚ) ≤ 1 - u := by linarith
  have hu_sq : (0 : ℚ) ≤ (1 + u) ^ 2 := by positivity
  have hQr : Q * ratio ≤ L * (1 + u) ^ 2 := by
    have h1 : Q * ratio ≤ fL / ratio * (1 + u) * ratio :=
      mul_le_mul_of_nonneg_right hQ_ub hratio_pos.le
    rw [mul_right_comm, div_mul_cancel₀ _ (ne_of_gt hratio_pos)] at h1
    have h2 : fL * (1 + u) ≤ L * (1 + u) * (1 + u) :=
      mul_le_mul_of_nonneg_right hfL_ub hu_nonneg
    have h3 : L * (1 + u) * (1 + u) = L * (1 + u) ^ 2 := by ring
    linarith
  have hIr : I * ratio ≤ L * (1 + u) ^ 2 - ratio := by
    have h1 : (I + 1) * ratio ≤ Q * ratio :=
      mul_le_mul_of_nonneg_right hi hratio_pos.le
    have h2 : (I + 1) * ratio = I * ratio + ratio := by ring
    linarith [hQr]
  refine ⟨hsrc_nonneg, ?_⟩
  have hchain : src ≤ (L * (1 + u) ^ 2 - ratio) * (1 + u) ^ 2 := by
    have h3 : fI * ratio ≤ I * (1 + u) * ratio :=
      mul_le_mul_of_nonneg_right hfI_ub hratio_pos.le
    have h4 : fI * ratio * (1 + u) ≤ I * (1 + u) * ratio * (1 + u) :=
      mul_le_mul_of_nonneg_right h3 hu_nonneg
    have h5 : I * ratio * (1 + u) ^ 2 ≤ (L * (1 + u) ^ 2 - ratio) * (1 + u) ^ 2 :=
      mul_le_mul_of_nonneg_right hIr hu_sq
    have h6 : I * (1 + u) * ratio * (1 + u) = I * ratio * (1 + u) ^ 2 := by ring
    linarith [hsrc_ub]
  have hTu_pos : (0 : ℚ) < T * (1 + u) := by
    have h1 : (0 : ℚ) < 1 + u := by linarith
    exact mul_pos hTpos h1
  have hrTl : S * (1 - u) ^ 2 ≤ ratio * (T * (1 + u)) := by
    have e1 : A * fT ≤ A * (T * (1 + u)) := mul_le_mul_of_nonneg_left hfT_ub hA_pos.le
    have e2 : S * (1 - u) ≤ A * (T * (1 + u)) := by
      rw [hAfT] at e1
      linarith [hfS_lb]
    have e3 : A * (1 - u) * (T * (1 + u)) ≤ ratio * (T * (1 + u)) :=
      mul_le_mul_of_nonneg_right hratio_lb hTu_pos.le
    have e4 : S * (1 - u) * (1 - u) ≤ A * (T * (1 + u)) * (1 - u) :=
      mul_le_mul_of_nonneg_right e2 humu
    have e5 : A * (T * (1 + u)) * (1 - u) = A * (1 - u) * (T * (1 + u)) := by ring
    have e6 : S * (1 - u) ^ 2 = S * (1 - u) * (1 - u) := by ring
    linarith
  have h32 : 32 * L * T * u ≤ S := by
    have hm := mul_le_mul_of_nonneg_right hsizeQ hu0.le
    have h1 : S * 9007199254740992 * u = S := by
      rw [mul_assoc, mul_comm (9007199254740992 : ℚ) u, hinv, mul_one]
    linarith
  have hTnn : (0 : ℚ) ≤ T := by linarith
  have hSpos' : (0 : ℚ) < S := by linarith
  have hu_le_one : u ≤ 1 := by linarith
  have hu_sq_nn : (0 : ℚ) ≤ u * u := mul_nonneg hu0.le hu0.le
  have hu2 : u * u ≤ u * (1 / 1024) := mul_le_mul_of_nonneg_left hu1 hu0.le
  have hu3 : u * u * u ≤ u * (1 / 1024) := by
    have t := mul_le_mul_of_nonneg_left hu_le_one hu_sq_nn
    have t2 : u * u * 1 = u * u := by ring
    linarith only [t, t2, hu2]
  have hu3_nn : (0 : ℚ) ≤ u * u * u := mul_nonneg hu_sq_nn hu0.le
  have hu4 : u * u * u * u ≤ u * (1 / 1024) := by
    have t := mul_le_mul_of_nonneg_left hu_le_one hu3_nn
    have t2 : u * u * u * 1 = u * u * u := by ring
    linarith only [t, t2, hu3]
  have g1 : L * ((1 + u) ^ 4 - 1) ≤ 5 * u * L := by
    have t1 : (1 + u) ^ 4 - 1 ≤ 5 * u := by
      have e : (1 + u) ^ 4 - 1 = 4 * u + 6 * (u * u) + 4 * (u * u * u) + u * u * u * u := by
        ring
      linarith only [e, hu0, hu2, hu3, hu4]
    have t2 := mul_le_mul_of_nonneg_left t1 hL
    linarith [t2]
  have g5 : L * ((1 + u) ^ 4 - 1) < ratio := by
    have c1 : L * ((1 + u) ^ 4 - 1) * (T * (1 + u)) ≤ 5 * u * L * (T * (1 + u)) :=
      mul_le_mul_of_nonneg_right g1 hTu_pos.le
    have h5uLT : (0 : ℚ) ≤ 5 * u * L * T :=
      mul_nonneg (mul_nonneg (mul_nonneg (by norm_num) hu0.le) hL) hTnn
    have c2 : 5 * u * L * (T * (1 + u)) ≤ 10 * u * L * T := by
      have d1 : (1 : ℚ) + u ≤ 2 := by linarith
      have d2 := mul_le_mul_of_nonneg_left d1 h5uLT
      have d3 : 5 * u * L * T * (1 + u) = 5 * u * L * (T * (1 + u)) := by ring
      have d4 : 5 * u * L * T * 2 = 10 * u * L * T := by ring
      linarith
    have c3 : 10 * u * L * T ≤ 10 / 32 * S := by linarith [h32]
    have c4 : 10 / 32 * S < S * (1 - u) ^ 2 := by
      have hq : (10 / 32 : ℚ) < (1 - u) ^ 2 := by
        have e : (1 - u) ^ 2 = 1 - 2 * u + u * u := by ring
        linarith only [e, hu1, hu_sq_nn]
      have hm := mul_lt_mul_of_pos_left hq hSpos'
      linarith [hm]
    have c5 : L * ((1 + u) ^ 4 - 1) * (T * (1 + u)) < ratio * (T * (1 + u)) := by
      linarith [hrTl]
    exact lt_of_mul_lt_mul_right c5 hTu_pos.le
  have h6 : ratio ≤ ratio * (1 + u) ^ 2 := by
    have h1 : (1 : ℚ) ≤ (1 + u) ^ 2 := by
      have e : (1 + u) ^ 2 = 1 + 2 * u + u * u := by ring
      linarith only [e, hu0, hu_sq_nn]
    have h2 := mul_le_mul_of_nonneg_left h1 hratio_pos.le
    linarith [h2]
  have hfin : (L * (1 + u) ^ 2 - ratio) * (1 + u) ^ 2 < L := by
    have e1 : (L * (1 + u) ^ 2 - ratio) * (1 + u) ^ 2 = L * (1 + u) ^ 4 - ratio * (1 + u) ^ 2 := by
      ring
    have e2 : L * ((1 + u) ^ 4 - 1) = L * (1 + u) ^ 4 - L := by ring
    linarith [g5, h6]
  linarith [hchain]

/-- Every interpolation step of `resample` succeeds when the input is not
astronomically large relative to the rate ratio. -/
theorem resampleStep_isSome_of_bound (s : List Sample) (sr tr : ℕ)
    (hsr : 1 ≤ sr) (htr : 1 ≤ tr)
    (hsize : 32 * s.length * tr ≤ sr * 9007199254740992) (i : ℕ)
    (hi : i < Int.toNat ⌊fdiv (flNat s.length) (fdiv (flNat sr) (flNat tr))⌋) :
    (resampleStep s (fdiv (flNat sr) (flNat tr)) i).isSome := by
  set ratio : ℚ := fdiv (flNat sr) (flNat tr) with hratiodef
  set Q : ℚ := fdiv (flNat s.length) ratio with hQdef
  have hfloor : (i : ℤ) + 1 ≤ ⌊Q⌋ := by omega
  have hiq : (i : ℚ) + 1 ≤ Q := by
    have h1 : ((i : ℤ) + 1 : ℚ) ≤ (⌊Q⌋ : ℚ) := by exact_mod_cast hfloor
    have h2 : (⌊Q⌋ : ℚ) ≤ Q := Int.floor_le Q
    push_cast at h1
    linarith
  obtain ⟨hnn, hlt⟩ := src_lt_len s.length sr tr hsr htr hsize i hiq
  have hfl : ⌊fmul (flNat i) ratio⌋ < (s.length : ℤ) := by
    have := Int.floor_le_floor hlt.le
    have hx : ⌊fmul (flNat i) ratio⌋ < (s.length : ℤ) := by
      rw [Int.floor_lt]
      push_cast
      exact hlt
    exact hx
  have hnn' : 0 ≤ ⌊fmul (flNat i) ratio⌋ := Int.floor_nonneg.mpr hnn
  have hidx : Int.toNat ⌊fmul (flNat i) ratio⌋ < s.length := by omega
  rw [resampleStep]
  simp only [hidx, if_pos]
  rfl

theorem resample_length (s : List Sample) (sr tr : ℕ) (out : List Sample)
    (h : resample s sr tr = some out) :
    out.length = resampleOutputLen s.length sr tr := by
  by_cases heq : sr = tr
  · rw [resample, if_pos heq] at h
    cases h
    rw [resampleOutputLen, if_pos heq]
  · rw [resample, if_neg heq] at h
    rw [resampleOutputLen, if_neg heq]
    have := resampleLoop_length _ _ _ _ h
    simpa using this

theorem chunksRs_nil (n : ℕ) : chunksRs n [] = [] := by
  rw [chunksRs]
  simp

theorem chunksRs_cons (n : ℕ) (l : List Sample) (hn : n ≠ 0) (hl : l ≠ []) :
    chunksRs n l = l.take n :: chunksRs n (l.drop n) := by
  rw [chunksRs, dif_neg (by simp [hl, hn])]

theorem chunksRs_length (n : ℕ) (l : List Sample) :
    n ≠ 0 → (chunksRs n l).length = (l.length + n - 1) / n := by
  induction l using chunksRs.induct n with
  | case1 l h =>
    intro hn
    rcases h with h | h
    · subst h
      rw [chunksRs_nil]
      simp [Nat.div_eq_of_lt (by omega : n - 1 < n)]
    · exact absurd h hn
  | case2 l h ih =>
    intro hn
    rw [not_or] at h
    rw [chunksRs_cons n l hn h.1, List.length_cons, ih hn, List.length_drop]
    have hl1 : 1 ≤ l.length := List.length_pos.mpr h.1
    have hrw : l.length + n - 1 = (l.length - 1) + n := by omega
    rw [hrw, Nat.add_div_right _ (Nat.pos_of_ne_zero hn)]
    rcases le_or_lt n l.length with hnl | hln
    · rw [show l.length - n + n - 1 = l.length - 1 by omega]
    · rw [show l.length - n + n - 1 = n - 1 by omega]
      rw [Nat.div_eq_of_lt (by omega), Nat.div_eq_of_lt (by omega)]

theorem chunksRs_getD (n : ℕ) (l : List Sample) :
    n ≠ 0 → ∀ i, i < (chunksRs n l).length →
      (chunksRs n l).getD i [] = (l.drop (n * i)).take n := by
  induction l using chunksRs.induct n with
  | case1 l h =>
    intro hn i hi
    rcases h with h | h
    · subst h
      rw [chunksRs_nil] at hi
      simp at hi
    · exact absurd h hn
  | case2 l h ih =>
    intro hn i hi
    rw [not_or] at h
    rw [chunksRs_cons n l hn h.1] at hi ⊢
    cases i with
    | zero => simp
    | succ j =>
      rw [List.getD_cons_succ]
      rw [ih hn j (by simpa using hi)]
      rw [List.drop_drop]
      rw [show n + n * j = n * (j + 1) by ring]

theorem c2_chunks_eval : chunksRs 2 ([1, 1, 1] : List Sample) = [[1, 1], [1]] := by
  rw [chunksRs_cons 2 _ (by decide) (by simp),
      show List.take 2 ([1, 1, 1] : List Sample) = [1, 1] from rfl,
      show List.drop 2 ([1, 1, 1] : List Sample) = [1] from rfl,
      chunksRs_cons 2 _ (by decide) (by simp),
      show List.take 2 ([1] : List Sample) = [1] from rfl,
      show List.drop 2 ([1] : List Sample) = [] from rfl,
      chunksRs_nil]

/-! ## Claim C2 -/

/-- C2 counterexample: for three samples and two channels the trailing
partial group is NOT dropped: the output is `[1, 1/2]` with two samples
(the claim demands `floor(3 / 2) = 1` of them), and the partial group's
lone sample is averaged by the full channel count (`1 / 2`), not a
full-group average. -/
theorem claim_C2_counterexample :
    stereo_to_mono [1, 1, 1] 2 = [1, 1 / 2] ∧ (3 : ℕ) / 2 = 1 := by
  constructor
  · rw [stereo_to_mono, if_neg (by decide), c2_chunks_eval]
    norm_num [List.sum_cons, List.sum_nil]
  · decide

/-- C2 amended: for `channel_count ≥ 2` the output has
`ceil(len / channel_count)` samples — the trailing partial group is kept —
and output sample `i` is the sum of the `i`-th chunk (a full group of
`channel_count` samples, or the shorter trailing group) divided by the full
channel count. -/
theorem claim_C2_amended (s : List Sample) (c : ℕ) (hc : 2 ≤ c) :
    (stereo_to_mono s c).length = (s.length + c - 1) / c ∧
    ∀ i, i < (stereo_to_mono s c).length →
      (stereo_to_mono s c).getD i 0 = ((s.drop (c * i)).take c).sum / (c : ℚ) := by
  have hc1 : c ≠ 1 := by omega
  have hc0 : c ≠ 0 := by omega
  rw [stereo_to_mono, if_neg hc1]
  constructor
  · rw [List.length_map, chunksRs_length c s hc0]
  · intro i hi
    rw [List.length_map] at hi
    rw [List.getD_eq_getElem _ _ (by rw [List.length_map]; exact hi)]
    rw [List.getElem_map]
    rw [← List.getD_eq_getElem (chunksRs c s) [] hi]
    rw [chunksRs_getD c s hc0 i hi]

/-- C2 witness: the amended law at three samples, two channels. -/
theorem claim_C2_witness :
    (stereo_to_mono [1, 1, 1] 2).length = (3 + 2 - 1) / 2 ∧
    (stereo_to_mono [1, 1, 1] 2).getD 1 0
      = ((([1, 1, 1] : List Sample).drop (2 * 1)).take 2).sum / (2 : ℚ) :=
  ⟨(claim_C2_amended [1, 1, 1] 2 (by norm_num)).1,
   (claim_C2_amended [1, 1, 1] 2 (by norm_num)).2 1
     (by rw [(claim_C2_amended [1, 1, 1] 2 (by norm_num)).1]; norm_num)⟩

/-! ## Claim C1 -/

/-- C1 counterexample: with a host that has no default input device,
`AudioHandle::start` still returns a success handle instead of the
`NoDevice` error the claim promises — the error only exists inside the
spawned capture thread. -/
theorem claim_C1_counterexample :
    AudioHandle.start ⟨none⟩ ⟨16000⟩
        = .ok ⟨.error MicrophoneError.NoDevice⟩ ∧
      AudioHandle.start ⟨none⟩ ⟨16000⟩ ≠ .error MicrophoneError.NoDevice := by
  constructor
  · rfl
  · decide

/-- C1 amended: `start()` always returns a success handle synchronously; the
`NoDevice` / `ConfigError` / `StreamError` conditions are detected inside the
dedicated capture thread by `run_audio_capture`, which produces the
corresponding error there (the thread logs it; it is not surfaced to the
caller of `start`). -/
theorem claim_C1_amended (host : Host) (config : AudioConfig) :
    AudioHandle.start host config = .ok ⟨run_audio_capture host config⟩ ∧
    (host.defaultInputDevice = none →
      run_audio_capture host config = .error MicrophoneError.NoDevice) ∧
    (∀ d e, host.defaultInputDevice = some d →
      d.defaultInputConfigResult = .error e →
      run_audio_capture host config = .error (MicrophoneError.ConfigError e)) ∧
    (∀ d cfg e, host.defaultInputDevice = some d →
      d.defaultInputConfigResult = .ok cfg →
      d.buildInputStreamResult = .error e →
      run_audio_capture host config = .error (MicrophoneError.StreamError e)) ∧
    (∀ d cfg e, host.defaultInputDevice = some d →
      d.defaultInputConfigResult = .ok cfg →
      d.buildInputStreamResult = .ok () →
      d.playResult = .error e →
      run_audio_capture host config = .error (MicrophoneError.StreamError e)) := by
  refine ⟨rfl, ?_, ?_, ?_, ?_⟩
  · intro h
    simp [run_audio_capture, h]
  · intro d e hd he
    simp [run_audio_capture, hd, he]
  · intro d cfg e hd hc hb
    simp [run_audio_capture, hd, hc, hb]
  · intro d cfg e hd hc hb hp
    simp [run_audio_capture, hd, hc, hb, hp]

/-- C1 witness: each failure mode realized on a concrete host. -/
theorem claim_C1_witness :
    run_audio_capture ⟨none⟩ ⟨16000⟩ = .error MicrophoneError.NoDevice ∧
    run_audio_capture ⟨some ⟨.error "boom", .ok (), .ok ()⟩⟩ ⟨16000⟩
      = .error (MicrophoneError.ConfigError "boom") ∧
    run_audio_capture ⟨some ⟨.ok ⟨48000⟩, .error "nope", .ok ()⟩⟩ ⟨16000⟩
      = .error (MicrophoneError.StreamError "nope") ∧
    run_audio_capture ⟨some ⟨.ok ⟨48000⟩, .ok (), .error "later"⟩⟩ ⟨16000⟩
      = .error (MicrophoneError.StreamError "later") :=
  ⟨(claim_C1_amended ⟨none⟩ ⟨16000⟩).2.1 rfl,
   (claim_C1_amended _ ⟨16000⟩).2.2.1 _ _ rfl rfl,
   (claim_C1_amended _ ⟨16000⟩).2.2.2.1 _ _ _ rfl rfl rfl,
   (claim_C1_amended _ ⟨16000⟩).2.2.2.2 _ _ _ rfl rfl rfl rfl⟩

/-! ## Claim C3 -/

/-- C3: starting from an empty accumulation buffer, any sequence of
`push_audio` calls totaling fewer than 16000 samples followed by `flush`
dispatches nothing (no request payload, pending flag still clear), leaves
the event queue untouched and the buffer empty. -/
theorem claim_C3_min_duration_gate (chunks : List (List Sample)) (key : String)
    (lang : Language) (ev : List SttEvent)
    (hlen : (chunks.map List.length).sum < 16000) :
    VoxtralEngine.flush
        (chunks.foldl (fun s c => VoxtralEngine.push_audio c s)
          { api_key := key, language := lang, audio_buffer := [],
            events := ev, pending := false })
      = ({ api_key := key, language := lang, audio_buffer := [],
           events := ev, pending := false }, none) := by
  rw [foldl_push_audio]
  simp only [List.nil_append]
  unfold VoxtralEngine.flush VoxtralEngine.send_full_audio
  by_cases hj : chunks.flatten = []
  · simp [hj]
  · have hlt : chunks.flatten.length < 16000 := by
      rw [List.length_flatten]
      exact hlen
    simp [hj, hlt, hlen]

/-- C3 witness: two small pushes then a flush on a concrete engine. -/
theorem claim_C3_witness :
    VoxtralEngine.flush
        (([[1, 2], [3]] : List (List Sample)).foldl
          (fun s c => VoxtralEngine.push_audio c s)
          { api_key := "k", language := Language.Auto, audio_buffer := [],
            events := [], pending := false })
      = ({ api_key := "k", language := Language.Auto, audio_buffer := [],
           events := [], pending := false }, none) :=
  claim_C3_min_duration_gate [[1, 2], [3]] "k" Language.Auto [] (by decide)

/-! ## Claim C4 -/

/-- C4: `poll` is a FIFO drain of the event queue: it returns the head and
removes exactly that event (none-sentinel and unchanged state on an empty
queue), draining by repeated `poll` returns the whole queue in order, and
events enqueued as A then B are drained as A then B — nothing dropped or
reordered. -/
theorem claim_C4_poll_fifo (s : VoxtralEngineState) (A B : SttEvent) :
    VoxtralEngine.poll s = (s.events.head?, { s with events := s.events.tail }) ∧
    VoxtralEngine.pollDrain s = s.events ∧
    VoxtralEngine.pollDrain
        (VoxtralEngine.enqueue_event B (VoxtralEngine.enqueue_event A s))
      = s.events ++ [A, B] := by
  refine ⟨poll_eq s, pollDrain_eq s, ?_⟩
  rw [pollDrain_eq]
  simp [VoxtralEngine.enqueue_event]

/-! ## Claim C5 -/

/-- C5: when a dispatched request settles, exactly one `Final` event is
enqueued iff the call succeeded with non-empty text (nothing on failure or
empty text), no `Partial` event is ever enqueued, the pending flag is cleared
unconditionally, and the handler touches nothing else — identically for the
Voxtral and the OpenAI engine.  No error reaches the caller of
`push_audio`/`flush`: both are total functions on the engine state. -/
theorem claim_C5_dispatch_result (r : Except SttError String)
    (sv : VoxtralEngineState) (so : OpenAiEngineState) :
    ((VoxtralEngine.settleResult r sv).events
        = sv.events ++ (match r with
            | .ok t => if t = "" then [] else [SttEvent.Final t]
            | .error _ => []) ∧
      (VoxtralEngine.settleResult r sv).pending = false ∧
      (VoxtralEngine.settleResult r sv).audio_buffer = sv.audio_buffer ∧
      (∀ t, SttEvent.Partial t ∈ (VoxtralEngine.settleResult r sv).events ↔
        SttEvent.Partial t ∈ sv.events)) ∧
    ((OpenAiEngine.settleResult r so).events
        = so.events ++ (match r with
            | .ok t => if t = "" then [] else [SttEvent.Final t]
            | .error _ => []) ∧
      (OpenAiEngine.settleResult r so).pending = false ∧
      (OpenAiEngine.settleResult r so).audio_buffer = so.audio_buffer ∧
      (∀ t, SttEvent.Partial t ∈ (OpenAiEngine.settleResult r so).events ↔
        SttEvent.Partial t ∈ so.events)) := by
  cases r with
  | ok text =>
    by_cases ht : text = "" <;>
      simp [VoxtralEngine.settleResult, OpenAiEngine.settleResult, ht]
  | error e =>
    simp [VoxtralEngine.settleResult, OpenAiEngine.settleResult]

/-! ## Claim C6 -/

/-- C6: `start()` on a `Running` pipeline returns `AlreadyRunning` and leaves
the whole pipeline state (status, engine, capture handle, channels) exactly
as it was; `stop()` on a `Stopped` pipeline returns success and likewise
changes nothing. -/
theorem claim_C6_start_stop_preconditions (host : Host) (p : RealtimePipelineState) :
    (p.status = PipelineStatus.Running →
      RealtimePipeline.start host p = (.error PipelineError.AlreadyRunning, p)) ∧
    (p.status = PipelineStatus.Stopped →
      RealtimePipeline.stop p = (.ok (), p)) := by
  constructor
  · intro h
    simp [RealtimePipeline.start, h]
  · intro h
    simp [RealtimePipeline.stop, h]

/-- C6 witness: both preconditions realized on concrete pipeline states. -/
theorem claim_C6_witness :
    RealtimePipeline.stop
        (RealtimePipeline.new (VoxtralEngine.with_api_key "k") ⟨Language.Auto, ⟨16000⟩⟩)
      = (.ok (), RealtimePipeline.new (VoxtralEngine.with_api_key "k") ⟨Language.Auto, ⟨16000⟩⟩) ∧
    RealtimePipeline.start ⟨none⟩
        { RealtimePipeline.new (VoxtralEngine.with_api_key "k") ⟨Language.Auto, ⟨16000⟩⟩ with
          status := PipelineStatus.Running }
      = (.error PipelineError.AlreadyRunning,
         { RealtimePipeline.new (VoxtralEngine.with_api_key "k") ⟨Language.Auto, ⟨16000⟩⟩ with
           status := PipelineStatus.Running }) :=
  ⟨(claim_C6_start_stop_preconditions ⟨none⟩ _).2 rfl,
   (claim_C6_start_stop_preconditions ⟨none⟩ _).1 rfl⟩

theorem fl_zero : fl 0 = 0 := by rw [fl, if_pos rfl]

theorem flNat_zero : flNat 0 = 0 := by rw [flNat, Nat.cast_zero, fl_zero]

theorem resample_isSome_of_bound (s : List Sample) (sr tr : ℕ) (hsr : 1 ≤ sr) (htr : 1 ≤ tr)
    (hsize : 32 * s.length * tr ≤ sr * 9007199254740992) :
    (resample s sr tr).isSome := by
  by_cases heq : sr = tr
  · rw [resample, if_pos heq]
    rfl
  · rw [resample, if_neg heq]
    apply resampleLoop_isSome
    intro i hi
    exact resampleStep_isSome_of_bound s sr tr hsr htr hsize i (List.mem_range.mp hi)

theorem resample_nil : resample ([] : List Sample) 1 2 = some [] := by
  simp only [resample, List.length_nil, flNat_zero, if_neg (by decide : ¬(1 = 2))]
  simp only [fdiv, zero_div, fl_zero, Int.floor_zero, Int.toNat_zero, List.range_zero,
    resampleLoop]

theorem c7_ratio_eval : fdiv (flNat 48000) (flNat 44100)
    = 4901877145437275 / 4503599627370496 := by
  rw [fdiv, flNat_eq_self (by norm_num) (by norm_num), flNat_eq_self (by norm_num) (by norm_num)]
  rw [show ((48000 : ℕ) : ℚ) / ((44100 : ℕ) : ℚ) = 160 / 147 by norm_num]
  exact @fl_eval (160 / 147) (4901877145437275 / 4503599627370496) 0 4901877145437275
    (by norm_num) (by norm_num) (by norm_num)
    (@roundHalfEven_eval_gt _ 4901877145437274 (by norm_num [Int.floor_eq_iff]) (by norm_num))
    (by norm_num)

theorem c7_outlen_eval : resampleOutputLen 480 48000 44100 = 440 := by
  rw [resampleOutputLen, if_neg (by decide : ¬(48000 = 44100)), c7_ratio_eval]
  rw [fdiv, flNat_eq_self (by norm_num) (by norm_num)]
  rw [show ((480 : ℕ) : ℚ) / (4901877145437275 / 4503599627370496 : ℚ)
      = 2161727821137838080 / 4901877145437275 by norm_num]
  rw [@fl_eval (2161727821137838080 / 4901877145437275) (7758154045587455 / 17592186044416)
    8 7758154045587455
    (by norm_num) (by norm_num) (by norm_num)
    (@roundHalfEven_eval_lt _ 7758154045587455 (by norm_num [Int.floor_eq_iff]) (by norm_num))
    (by norm_num)]
  rw [show ⌊(7758154045587455 / 17592186044416 : ℚ)⌋ = 440 by norm_num [Int.floor_eq_iff]]
  rfl

theorem c9_ratio_eval : fdiv (flNat 24605) (flNat 127889)
    = 3465851444031967 / 18014398509481984 := by
  rw [fdiv, flNat_eq_self (by norm_num) (by norm_num), flNat_eq_self (by norm_num) (by norm_num)]
  rw [show ((24605 : ℕ) : ℚ) / ((127889 : ℕ) : ℚ) = 1295 / 6731 by norm_num]
  exact @fl_eval (1295 / 6731) (3465851444031967 / 18014398509481984) (-3) 6931702888063934
    (by norm_num) (by norm_num) (by norm_num)
    (@roundHalfEven_eval_gt _ 6931702888063933 (by norm_num [Int.floor_eq_iff]) (by norm_num))
    (by norm_num)

theorem c9_fi0_eval : flNat 36499027024495303 = 36499027024495304 := by
  rw [flNat]
  rw [show ((36499027024495303 : ℕ) : ℚ) = 36499027024495303 by norm_num]
  exact @fl_eval 36499027024495303 36499027024495304 55 4562378378061913
    (by norm_num) (by norm_num) (by norm_num)
    (@roundHalfEven_eval_gt _ 4562378378061912 (by norm_num [Int.floor_eq_iff]) (by norm_num))
    (by norm_num)

theorem c9_src_eval :
    fmul (flNat 36499027024495303) (3465851444031967 / 18014398509481984 : ℚ)
      = 7022172039328691 := by
  rw [fmul, c9_fi0_eval]
  rw [show (36499027024495304 : ℚ) * (3465851444031967 / 18014398509481984 : ℚ)
      = 15812525689826104642063877172871 / 2251799813685248 by norm_num]
  exact @fl_eval (15812525689826104642063877172871 / 2251799813685248) 7022172039328691
    52 7022172039328691
    (by norm_num) (by norm_num) (by norm_num)
    (@roundHalfEven_eval_lt _ 7022172039328691 (by norm_num [Int.floor_eq_iff]) (by norm_num))
    (by norm_num)

theorem c9_outlen_eval :
    Int.toNat ⌊fdiv (flNat 7022172039328691) (3465851444031967 / 18014398509481984 : ℚ)⌋
      = 36499027024495304 := by
  rw [fdiv, flNat_eq_self (by norm_num) (by norm_num)]
  rw [show ((7022172039328691 : ℕ) : ℚ) / (3465851444031967 / 18014398509481984 : ℚ)
      = 126500205518608835079525518802944 / 3465851444031967 by norm_num]
  rw [@fl_eval (126500205518608835079525518802944 / 3465851444031967) 36499027024495304
    55 4562378378061913
    (by norm_num) (by norm_num) (by norm_num)
    (@roundHalfEven_eval_gt _ 4562378378061912 (by norm_num [Int.floor_eq_iff]) (by norm_num))
    (by norm_num)]
  rw [show ⌊(36499027024495304 : ℚ)⌋ = 36499027024495304 by norm_num]
  rfl

/-! ## Claim C7 -/

/-- C7 counterexample: at 480 input samples, 48000 to 44100 Hz, the code
computes 440 output samples while the exact rational floor of
`len * tr / sr` is 441 — the `f64` division pair loses the exact case. -/
theorem claim_C7_counterexample :
    (resample (List.replicate 480 (0 : ℚ)) 48000 44100).map List.length = some 440 ∧
    ⌊(480 * 44100 : ℚ) / 48000⌋ = 441 := by
  constructor
  · have hsome := resample_isSome_of_bound (List.replicate 480 0) 48000 44100
      (by norm_num) (by norm_num) (by rw [List.length_replicate]; norm_num)
    obtain ⟨out, hout⟩ := Option.isSome_iff_exists.mp hsome
    have hlen := resample_length _ _ _ _ hout
    rw [hout, Option.map_some']
    rw [List.length_replicate] at hlen
    rw [hlen, c7_outlen_eval]
  · norm_num [Int.floor_eq_iff]

/-- C7 amended: the number of output samples is the `f64`-computed
`(len as f64 / (sr as f64 / tr as f64)) as usize` (`resampleOutputLen`),
which agrees with `floor(len * tr / sr)` except when binary64 rounding makes
the quotient fall just below an exact integer (then it is one less, as at
len 480, 48000 to 44100 Hz). -/
theorem claim_C7_amended (s : List Sample) (sr tr : ℕ) (out : List Sample)
    (h : resample s sr tr = some out) :
    out.length = resampleOutputLen s.length sr tr :=
  resample_length s sr tr out h

/-- C7 witness: the amended length law applied to a concrete call. -/
theorem claim_C7_witness :
    resample ([] : List Sample) 1 2 = some [] ∧
    ([] : List Sample).length = resampleOutputLen ([] : List Sample).length 1 2 :=
  ⟨resample_nil, claim_C7_amended [] 1 2 [] resample_nil⟩

/-! ## Claim C9 -/

/-- C9 counterexample: with an input of 7022172039328691 samples at rates
24605 to 127889, the computed output length is 36499027024495304 and at
output index 36499027024495303 the `f64` index arithmetic yields
`idx_floor = 7022172039328691 = len`, an out-of-bounds access (panic) — so
`resample` is not total for every input length. -/
theorem claim_C9_counterexample :
    resample (List.replicate 7022172039328691 (0 : ℚ)) 24605 127889 = none := by
  simp only [resample, List.length_replicate, if_neg (by decide : ¬(24605 = 127889))]
  rw [c9_ratio_eval, c9_outlen_eval]
  apply resampleLoop_eq_none _ _ _ 36499027024495303
  · exact List.mem_range.mpr (by norm_num)
  · simp only [resampleStep, List.length_replicate, c9_src_eval]
    rw [show ⌊(7022172039328691 : ℚ)⌋ = 7022172039328691 by norm_num]
    rw [if_neg (by norm_num)]

/-- C9 amended: every array access of `resample` is in bounds — so the call
returns a result rather than panicking — whenever the input is not
astronomically large relative to the rate ratio, specifically when
`32 * len(s) * tr ≤ sr * 2 ^ 53`; this covers every physically realizable
buffer (the counterexample needs petabytes of samples). -/
theorem claim_C9_amended (s : List Sample) (sr tr : ℕ) (hsr : 1 ≤ sr) (htr : 1 ≤ tr)
    (hsize : 32 * s.length * tr ≤ sr * 9007199254740992) :
    (resample s sr tr).isSome = true :=
  resample_isSome_of_bound s sr tr hsr htr hsize

/-- C9 witness: the in-bounds law applied to a concrete downsampling call. -/
theorem claim_C9_witness :
    (resample ([1, 2, 3, 4] : List Sample) 48000 16000).isSome = true :=
  claim_C9_amended [1, 2, 3, 4] 48000 16000 (by norm_num) (by norm_num) (by norm_num)

/-! ## Claim C8 -/

/-- C8: resampling with equal source and target rates returns the input
unchanged — the source short-circuits before any arithmetic. -/
theorem claim_C8_resample_identity (s : List Sample) (r : ℕ) :
    resample s r r = some s := by
  simp [resample]

/-! ## Claim C10 -/

theorem from_code_other_iff (c : String) :
    Language.from_code ((Language.Other c).code) = Language.Other c ↔
      (rustToLower c = c ∧ c ∉ langAliases) := by
  show Language.from_code c = Language.Other c ↔ _
  rw [Language.from_code]
  by_cases h1 : rustToLower c = "auto"
  · rw [if_pos h1]
    apply iff_of_false
    · simp
    · rintro ⟨hlc, hmem⟩
      exact hmem (by rw [← hlc, h1]; simp [langAliases])
  rw [if_neg h1]
  by_cases h2 : rustToLower c = "fr" ∨ rustToLower c = "french"
  · rw [if_pos h2]
    apply iff_of_false
    · simp
    · rintro ⟨hlc, hmem⟩
      rcases h2 with h2 | h2 <;>
        exact hmem (by rw [← hlc, h2]; simp [langAliases])
  rw [if_neg h2]
  by_cases h3 : rustToLower c = "en" ∨ rustToLower c = "english"
  · rw [if_pos h3]
    apply iff_of_false
    · simp
    · rintro ⟨hlc, hmem⟩
      rcases h3 with h3 | h3 <;>
        exact hmem (by rw [← hlc, h3]; simp [langAliases])
  rw [if_neg h3]
  by_cases h4 : rustToLower c = "es" ∨ rustToLower c = "spanish"
  · rw [if_pos h4]
    apply iff_of_false
    · simp
    · rintro ⟨hlc, hmem⟩
      rcases h4 with h4 | h4 <;>
        exact hmem (by rw [← hlc, h4]; simp [langAliases])
  rw [if_neg h4]
  by_cases h5 : rustToLower c = "de" ∨ rustToLower c = "german"
  · rw [if_pos h5]
    apply iff_of_false
    · simp
    · rintro ⟨hlc, hmem⟩
      rcases h5 with h5 | h5 <;>
        exact hmem (by rw [← hlc, h5]; simp [langAliases])
  rw [if_neg h5]
  by_cases h6 : rustToLower c = "it" ∨ rustToLower c = "italian"
  · rw [if_pos h6]
    apply iff_of_false
    · simp
    · rintro ⟨hlc, hmem⟩
      rcases h6 with h6 | h6 <;>
        exact hmem (by rw [← hlc, h6]; simp [langAliases])
  rw [if_neg h6]
  by_cases h7 : rustToLower c = "pt" ∨ rustToLower c = "portuguese"
  · rw [if_pos h7]
    apply iff_of_false
    · simp
    · rintro ⟨hlc, hmem⟩
      rcases h7 with h7 | h7 <;>
        exact hmem (by rw [← hlc, h7]; simp [langAliases])
  rw [if_neg h7]
  constructor
  · intro h
    have hlc : rustToLower c = c := by
      simpa using h
    refine ⟨hlc, ?_⟩
    intro hmem
    rw [hlc] at h1 h2 h3 h4 h5 h6 h7
    simp only [langAliases, List.mem_cons, List.not_mem_nil, or_false] at hmem
    tauto
  · rintro ⟨hlc, _⟩
    rw [hlc]

/-- C10: `from_code` inverts `code` on the seven named languages; for
`Other(code)` the round-trip holds exactly when the code is already
lowercase and is none of the recognized alias strings (otherwise
`from_code` produces the named language or the lowercased code). -/
theorem claim_C10_language_roundtrip :
    (Language.from_code Language.Auto.code = Language.Auto ∧
     Language.from_code Language.French.code = Language.French ∧
     Language.from_code Language.English.code = Language.English ∧
     Language.from_code Language.Spanish.code = Language.Spanish ∧
     Language.from_code Language.German.code = Language.German ∧
     Language.from_code Language.Italian.code = Language.Italian ∧
     Language.from_code Language.Portuguese.code = Language.Portuguese) ∧
    ∀ c : String, Language.from_code ((Language.Other c).code) = Language.Other c ↔
      (rustToLower c = c ∧ c ∉ langAliases) :=
  ⟨⟨by decide, by decide, by decide, by decide, by decide, by decide, by decide⟩,
   from_code_other_iff⟩

end Dictea
